import Mathlib

/-!
Verification development for the DEFI repository scripts
(`scripts/local_rag_server.py` and `scripts/bench_threads.py`).

The Python code is orchestration around external components (the
sentence-transformer embedder, the FAISS index and the GGUF language
model).  Those externals are modelled as function parameters; everything
the scripts themselves compute (chunk construction, markdown splitting,
the retrieve loop, the chat endpoint control flow, the benchmark driver
loop and aggregation) is embedded as executable Lean definitions that
follow the Python statement by statement.

Scores and durations are Python floats; they are modelled as rationals
(the code performs no float-specific operation on them beyond comparison,
addition, division, min and max).
-/

namespace DefiRag

/-- Metadata entry pushed by `init_vector_store`:
`{"title": ..., "source": "builtin" | "docs"}`. -/
structure ChunkMeta where
  title : String
  source : String
deriving DecidableEq, Repr

/-- A `(title, content)` document, the shape of the entries of
`KNOWLEDGE_BASE` and of the section dictionaries built by
`load_markdown_docs`. -/
structure KBDoc where
  title : String
  content : String
deriving DecidableEq, Repr

/-- One element of the list returned by `retrieve`:
`{"content": chunks[idx], "score": float(scores[0][i]), "metadata": chunk_metadata[idx]}`. -/
structure RetrievalResult where
  content : String
  score : Rat
  metadata : ChunkMeta
deriving DecidableEq, Repr

/-- Python list subscription `l[i]` with an `int` index: a non-negative
index reads from the front, a negative index wraps from the end
(`l[i]` is `l[len(l)+i]` for `-len(l) <= i < 0`), and anything outside
`[-len(l), len(l))` raises `IndexError`, modelled by `none`. -/
def pyGet {α : Type} (l : List α) (i : Int) : Option α :=
  if 0 ≤ i then l[i.toNat]?
  else if -i ≤ (l.length : Int) then l[l.length - (-i).toNat]?
  else none

/-- Python `str.strip()`: remove leading and trailing whitespace
characters. -/
def pyStrip (s : String) : String :=
  String.mk (((s.data.dropWhile Char.isWhitespace).reverse.dropWhile
    Char.isWhitespace).reverse)

/-- Split a character list at every occurrence of the separator
character; the Python `str.split(sep)` semantics (always at least one
piece, empty pieces preserved). -/
def splitCharList (c : Char) : List Char → List (List Char)
  | [] => [[]]
  | x :: xs =>
    let r := splitCharList c xs
    if x = c then [] :: r
    else
      match r with
      | [] => [[x]]
      | y :: ys => (x :: y) :: ys

/-- Python `content.split(chr(10))` as used by `load_markdown_docs`. -/
def pySplitNL (s : String) : List String :=
  (splitCharList (Char.ofNat 10) s.data).map String.mk

/-- Python `"\n".join(lines)` as used by `load_markdown_docs`. -/
def pyJoinNL : List String → String
  | [] => ""
  | [x] => x
  | x :: xs => x ++ "\n" ++ pyJoinNL xs

/-- Python `line.startswith("## ")`, the second-level-heading test of
`load_markdown_docs`. -/
def startsWithHH (line : String) : Bool :=
  "## ".data.isPrefixOf line.data

/-- Python `line[3:]`, the heading-marker removal of
`load_markdown_docs`. -/
def pyDropThree (line : String) : String :=
  String.mk (line.data.drop 3)

example : pyStrip "  ok  " = "ok" := by decide
example : pySplitNL "## T\nok" = ["## T", "ok"] := by decide
example : pyJoinNL ["a", "", "b"] = "a\n\nb" := by decide
example : startsWithHH "## Title" = true := by decide
example : startsWithHH "# Title" = false := by decide
example : pyDropThree "## Title " = "Title " := by decide
example : pyStrip (pyDropThree "## Title ") = "Title" := by decide

/-- The result-assembly loop of `retrieve` (local_rag_server.py lines
266-275): iterate over the `(score, index)` pairs reported by
`index.search`, keep the pairs whose index is numerically below
`len(chunks)`, and read chunk text and metadata by Python subscription.
A raised `IndexError` (an index below `-len`) aborts the whole call,
modelled by `none`. -/
def retrieveResults (chunks : List String) (chunk_metadata : List ChunkMeta) :
    List (Rat × Int) → Option (List RetrievalResult)
  | [] => some []
  | (s, idx) :: rest =>
    if idx < (chunks.length : Int) then
      match pyGet chunks idx, pyGet chunk_metadata idx with
      | some c, some m =>
        (retrieveResults chunks chunk_metadata rest).map
          (fun rs => { content := c, score := s, metadata := m } :: rs)
      | _, _ => none
    else retrieveResults chunks chunk_metadata rest

/-- The front-of-list position that Python subscription with integer index
`i` actually reads in a list of length `n` (negative indices wrap). -/
def pyResolve (n : Nat) (i : Int) : Nat :=
  if 0 ≤ i then i.toNat else n - (-i).toNat

theorem pyResolve_lt (n : Nat) (i : Int) (h1 : -1 ≤ i) (h2 : i < n) (h0 : 0 < n) :
    pyResolve n i < n := by
  unfold pyResolve
  by_cases h : 0 ≤ i
  · rw [if_pos h]
    omega
  · rw [if_neg h]
    omega

theorem pyGet_eq_getElem (l : List α) (i : Int) (h1 : -1 ≤ i) (h2 : i < l.length)
    (h0 : l ≠ []) : pyGet l i = l[pyResolve l.length i]? := by
  have hl : 0 < l.length := List.length_pos.mpr h0
  unfold pyGet pyResolve
  by_cases h : 0 ≤ i
  · rw [if_pos h, if_pos h]
  · have hi1 : i = -1 := by omega
    subst hi1
    norm_num
    intro h
    subst h
    simp

example : pyGet ["a", "b", "c"] (-1) = some "c" := by decide
example : pyGet ["a", "b", "c"] 1 = some "b" := by decide
example : pyGet ["a", "b", "c"] 3 = none := by decide
example : pyGet ["a", "b", "c"] (-4) = none := by decide
example : pyGet ([] : List String) (-1) = none := by decide

example :
    retrieveResults ["a", "b"] [⟨"ta", "builtin"⟩, ⟨"tb", "builtin"⟩]
      [((9 : Rat), 1), ((5 : Rat), 5), ((1 : Rat), -1)] =
    some [{ content := "b", score := 9, metadata := ⟨"tb", "builtin"⟩ },
          { content := "b", score := 1, metadata := ⟨"tb", "builtin"⟩ }] := by
  decide

/-- Main behaviour of the `retrieve` result loop when the index reports
only positions that FAISS can report (at least `-1`): the loop succeeds,
keeps exactly the pairs whose index is below the chunk count (preserving
their order and scores), and every assembled result is read from an
in-range front position of the parallel lists. -/
theorem retrieveResults_spec (chunks : List String) (meta : List ChunkMeta)
    (pairs : List (Rat × Int))
    (hc : chunks ≠ []) (hm : meta.length = chunks.length)
    (hi : ∀ p ∈ pairs, (-1 : Int) ≤ p.2) :
    ∃ rs, retrieveResults chunks meta pairs = some rs ∧
      rs.map (fun r => r.score) =
        (pairs.filter (fun p => p.2 < (chunks.length : Int))).map (fun p => p.1) ∧
      ∀ r ∈ rs, ∃ j : Nat, j < chunks.length ∧
        chunks[j]? = some r.content ∧ meta[j]? = some r.metadata := by
  have hc0 : 0 < chunks.length := List.length_pos.mpr hc
  have hm0 : meta ≠ [] := by
    intro h
    rw [h] at hm
    simp at hm
    omega
  induction pairs with
  | nil => exact ⟨[], rfl, rfl, by simp⟩
  | cons p rest ih =>
    obtain ⟨s, idx⟩ := p
    obtain ⟨rs, hrs, hscores, hpos⟩ := ih (fun q hq => hi q (List.mem_cons_of_mem _ hq))
    by_cases hlt : idx < (chunks.length : Int)
    · have hidx : (-1 : Int) ≤ idx := hi (s, idx) (List.mem_cons_self _ _)
      have hjlt : pyResolve chunks.length idx < chunks.length :=
        pyResolve_lt chunks.length idx hidx hlt hc0
      have hjm : pyResolve chunks.length idx < meta.length := by omega
      have hresolve : pyResolve meta.length idx = pyResolve chunks.length idx := by
        rw [hm]
      have h1 : pyGet chunks idx = some chunks[pyResolve chunks.length idx] := by
        rw [pyGet_eq_getElem chunks idx hidx hlt hc]
        exact List.getElem?_eq_getElem hjlt
      have h2 : pyGet meta idx = some meta[pyResolve chunks.length idx] := by
        rw [pyGet_eq_getElem meta idx hidx (by omega) hm0, hresolve]
        exact List.getElem?_eq_getElem hjm
      refine ⟨{ content := chunks[pyResolve chunks.length idx], score := s,
                metadata := meta[pyResolve chunks.length idx] } :: rs, ?_, ?_, ?_⟩
      · show retrieveResults chunks meta ((s, idx) :: rest) = _
        unfold retrieveResults
        rw [if_pos hlt, h1, h2, hrs]
        rfl
      · rw [List.filter_cons, if_pos (by simpa using hlt)]
        simp [hscores]
      · intro r hr
        rcases List.mem_cons.mp hr with h | h
        · subst h
          exact ⟨pyResolve chunks.length idx, hjlt,
            List.getElem?_eq_getElem hjlt, List.getElem?_eq_getElem hjm⟩
        · exact hpos r h
    · refine ⟨rs, ?_, ?_, hpos⟩
      · show retrieveResults chunks meta ((s, idx) :: rest) = _
        unfold retrieveResults
        rw [if_neg hlt]
        exact hrs
      · rw [List.filter_cons, if_neg (by simpa using hlt)]
        exact hscores

/-- Claim C1: for every batch of `(score, index)` pairs reported by the
vector index (FAISS reports positions that are `-1` or valid, never
below `-1`), with the non-empty chunk list and the equal-length metadata
list built by `init_vector_store`, the `retrieve` loop skips every pair
whose index is at or beyond the chunk count (the surviving results are
exactly the pairs with index below the count), it never fails with an
out-of-range access, and every returned result reads its content and
metadata from a position strictly below the chunk count. -/
theorem retrieve_skips_out_of_range (chunks : List String) (meta : List ChunkMeta)
    (pairs : List (Rat × Int))
    (hc : chunks ≠ []) (hm : meta.length = chunks.length)
    (hi : ∀ p ∈ pairs, (-1 : Int) ≤ p.2) :
    ∃ rs, retrieveResults chunks meta pairs = some rs ∧
      rs.length = (pairs.filter (fun p => p.2 < (chunks.length : Int))).length ∧
      ∀ r ∈ rs, ∃ j : Nat, j < chunks.length ∧
        chunks[j]? = some r.content ∧ meta[j]? = some r.metadata := by
  obtain ⟨rs, hsome, hscores, hpos⟩ := retrieveResults_spec chunks meta pairs hc hm hi
  refine ⟨rs, hsome, ?_, hpos⟩
  have := congrArg List.length hscores
  simpa using this

theorem retrieve_skips_out_of_range_witness :
    ∃ rs, retrieveResults ["a"] [⟨"t", "builtin"⟩] [((1 : Rat), 0), ((2 : Rat), 5)] =
        some rs ∧
      rs.length = (([((1 : Rat), 0), ((2 : Rat), 5)] : List (Rat × Int)).filter
        (fun p => p.2 < ((["a"] : List String).length : Int))).length ∧
      ∀ r ∈ rs, ∃ j : Nat, j < (["a"] : List String).length ∧
        (["a"] : List String)[j]? = some r.content ∧
        ([⟨"t", "builtin"⟩] : List ChunkMeta)[j]? = some r.metadata :=
  retrieve_skips_out_of_range ["a"] [⟨"t", "builtin"⟩] [((1 : Rat), 0), ((2 : Rat), 5)]
    (by decide) (by decide) (by decide)

/-- Claim C2: when the vector index reports the position `-1` (as FAISS
does when fewer than `top_k` vectors are indexed) and the chunk list is
non-empty, the guard `idx < len(chunks)` of `retrieve` admits the pair
instead of skipping it, and Python negative subscription wraps, so the
assembled result carries the content and metadata of the last chunk of
the list. -/
theorem retrieve_negative_index_wraps (chunks : List String) (meta : List ChunkMeta)
    (s : Rat) (rest : List (Rat × Int))
    (hc : chunks ≠ []) (hm : meta.length = chunks.length) :
    ∃ c m, chunks.getLast? = some c ∧ meta.getLast? = some m ∧
      retrieveResults chunks meta ((s, -1) :: rest) =
        (retrieveResults chunks meta rest).map
          (fun rs => { content := c, score := s, metadata := m } :: rs) := by
  have hc0 : 0 < chunks.length := List.length_pos.mpr hc
  have hm0 : meta ≠ [] := by
    intro h
    rw [h] at hm
    simp at hm
    omega
  have hj : chunks.length - 1 < chunks.length := by omega
  have hjm : chunks.length - 1 < meta.length := by omega
  have hres : pyResolve chunks.length (-1) = chunks.length - 1 := by
    norm_num [pyResolve]
  have hresm : pyResolve meta.length (-1) = chunks.length - 1 := by
    norm_num [pyResolve, hm]
  have hlt : (-1 : Int) < (chunks.length : Int) := by omega
  have h1 : pyGet chunks (-1) = some chunks[chunks.length - 1] := by
    rw [pyGet_eq_getElem chunks (-1) (by omega) hlt hc, hres]
    exact List.getElem?_eq_getElem hj
  have h2 : pyGet meta (-1) = some meta[chunks.length - 1] := by
    rw [pyGet_eq_getElem meta (-1) (by omega) (by omega) hm0, hresm]
    exact List.getElem?_eq_getElem hjm
  refine ⟨chunks[chunks.length - 1], meta[chunks.length - 1], ?_, ?_, ?_⟩
  · rw [List.getLast?_eq_getElem?]
    exact List.getElem?_eq_getElem hj
  · rw [List.getLast?_eq_getElem?, hm]
    exact List.getElem?_eq_getElem hjm
  · show retrieveResults chunks meta ((s, -1) :: rest) = _
    conv_lhs => rw [retrieveResults]
    rw [if_pos hlt, h1, h2]

theorem retrieve_negative_index_wraps_witness :
    ∃ c m, (["x", "y"] : List String).getLast? = some c ∧
      ([⟨"tx", "builtin"⟩, ⟨"ty", "builtin"⟩] : List ChunkMeta).getLast? = some m ∧
      retrieveResults ["x", "y"] [⟨"tx", "builtin"⟩, ⟨"ty", "builtin"⟩] [((7 : Rat), -1)] =
        (retrieveResults ["x", "y"] [⟨"tx", "builtin"⟩, ⟨"ty", "builtin"⟩] []).map
          (fun rs => { content := c, score := (7 : Rat), metadata := m } :: rs) :=
  retrieve_negative_index_wraps ["x", "y"] [⟨"tx", "builtin"⟩, ⟨"ty", "builtin"⟩] 7 []
    (by decide) (by decide)

/-- Claim C3: for every query (modelled through the pairs the index
reports for it) and every `top_k = k ≥ 1`, if the index honours its
contract — at most `k` reported pairs, scores in `[-1, 1]` (inner
products of normalized vectors), listed best match first in
non-increasing score order, positions never below `-1` — then `retrieve`
returns at most `k` results, each with a score in `[-1, 1]`, in
non-increasing score order. -/
theorem retrieve_topk_sorted (chunks : List String) (meta : List ChunkMeta)
    (pairs : List (Rat × Int)) (k : Nat) (_hk : 1 ≤ k)
    (hc : chunks ≠ []) (hm : meta.length = chunks.length)
    (hi : ∀ p ∈ pairs, (-1 : Int) ≤ p.2)
    (hlen : pairs.length ≤ k)
    (hrange : ∀ p ∈ pairs, (-1 : Rat) ≤ p.1 ∧ p.1 ≤ 1)
    (hsorted : pairs.Pairwise (fun p q => q.1 ≤ p.1)) :
    ∃ rs, retrieveResults chunks meta pairs = some rs ∧
      rs.length ≤ k ∧
      (∀ r ∈ rs, (-1 : Rat) ≤ r.score ∧ r.score ≤ 1) ∧
      rs.Pairwise (fun r q => q.score ≤ r.score) := by
  obtain ⟨rs, hsome, hscores, _⟩ := retrieveResults_spec chunks meta pairs hc hm hi
  refine ⟨rs, hsome, ?_, ?_, ?_⟩
  · have hlen2 := congrArg List.length hscores
    simp only [List.length_map] at hlen2
    calc rs.length = _ := hlen2
    _ ≤ pairs.length := List.length_filter_le _ _
    _ ≤ k := hlen
  · intro r hr
    have hmem : r.score ∈ List.map (fun r => r.score) rs :=
      List.mem_map_of_mem _ hr
    rw [hscores] at hmem
    obtain ⟨p, hpf, hpe⟩ := List.mem_map.mp hmem
    have hp : p ∈ pairs := List.mem_of_mem_filter hpf
    rw [← hpe]
    exact hrange p hp
  · have hfilt : (pairs.filter (fun p => p.2 < (chunks.length : Int))).Pairwise
        (fun p q => q.1 ≤ p.1) := hsorted.filter _
    have hmap : (List.map (fun r => r.score) rs).Pairwise (fun a b => b ≤ a) := by
      rw [hscores]
      exact (List.pairwise_map).mpr hfilt
    exact (List.pairwise_map).mp hmap

theorem retrieve_topk_sorted_witness :
    ∃ rs, retrieveResults ["a"] [⟨"t", "builtin"⟩] [((1 : Rat), 0)] = some rs ∧
      rs.length ≤ 3 ∧
      (∀ r ∈ rs, (-1 : Rat) ≤ r.score ∧ r.score ≤ 1) ∧
      rs.Pairwise (fun r q => q.score ≤ r.score) :=
  retrieve_topk_sorted ["a"] [⟨"t", "builtin"⟩] [((1 : Rat), 0)] 3
    (by decide) (by decide) (by decide) (by decide) (by decide) (by decide) (by decide)

/-- The per-file section splitter of `load_markdown_docs`
(local_rag_server.py lines 172-193), operating on the list of lines of
the file.  The fold state is `(sections, current_title,
current_content)`; a line starting with the second-level-heading marker
flushes the accumulated section if its line list is non-empty (Python
truthiness of `current_content`) and starts a new section titled with
`line[3:].strip()`; every other line is appended to the current body. -/
def mdStep (st : List KBDoc × String × List String) (line : String) :
    List KBDoc × String × List String :=
  if startsWithHH line then
    (if st.2.2.isEmpty then st.1
     else st.1 ++ [⟨st.2.1, pyJoinNL st.2.2⟩],
     pyStrip (pyDropThree line), [])
  else (st.1, st.2.1, st.2.2 ++ [line])

/-- Fold of `mdStep` over the lines of a markdown file, starting from
the file stem as title, with the final accumulated section flushed at
end of file if non-empty. -/
def splitSectionsLines (stem : String) (lines : List String) : List KBDoc :=
  let st := lines.foldl mdStep ([], stem, [])
  if st.2.2.isEmpty then st.1
  else st.1 ++ [⟨st.2.1, pyJoinNL st.2.2⟩]

/-- Section extraction of `load_markdown_docs` for one file content
string: split on newline and run the heading scan. -/
def splitSections (stem content : String) : List KBDoc :=
  splitSectionsLines stem (pySplitNL content)

example :
    splitSections "file" "## A\nbody a\n## B\nbody b" =
      [⟨"A", "body a"⟩, ⟨"B", "body b"⟩] := by decide
example :
    splitSections "file" "intro\n## A\nbody a" =
      [⟨"file", "intro"⟩, ⟨"A", "body a"⟩] := by decide
example : splitSections "file" "## T\nok" = [⟨"T", "ok"⟩] := by decide

/-- The builtin-knowledge-base loop body of `init_vector_store` (lines
225-227): append the chunk text and the metadata entry of one
`KNOWLEDGE_BASE` document. -/
def kbStep (acc : List String × List ChunkMeta) (doc : KBDoc) :
    List String × List ChunkMeta :=
  (acc.1 ++ [doc.title ++ "\n" ++ doc.content],
   acc.2 ++ [⟨doc.title, "builtin"⟩])

/-- The markdown-docs loop body of `init_vector_store` (lines 231-235):
strip the section content, and append chunk and metadata only when the
stripped content is longer than 50 characters. -/
def mdStepFiltered (acc : List String × List ChunkMeta) (doc : KBDoc) :
    List String × List ChunkMeta :=
  let content := pyStrip doc.content
  if content.length > 50 then
    (acc.1 ++ [doc.title ++ "\n" ++ content],
     acc.2 ++ [⟨doc.title, "docs"⟩])
  else acc

/-- The chunk-construction part of `init_vector_store`
(local_rag_server.py lines 222-236): push one chunk and one metadata
entry per `KNOWLEDGE_BASE` document, then one per markdown section whose
stripped content is longer than 50 characters; a chunk is the title and
the content concatenated with a single newline. -/
def initChunksMeta (kb md : List KBDoc) : List String × List ChunkMeta :=
  md.foldl mdStepFiltered (kb.foldl kbStep ([], []))

/-- The index population of `init_vector_store` (lines 240-246): encode
every chunk, L2-normalize each embedding row in place, and add the rows
to the index in chunk order.  The embedder `enc` and the in-place
normalization `norm` are the external components. -/
def indexVectors {V : Type} (enc : String → V) (norm : V → V)
    (chunks : List String) : List V :=
  (chunks.map enc).map norm

/-- The module-level state of local_rag_server.py that
`init_vector_store` reads and writes: the lazily built index and the two
parallel chunk lists. -/
structure RagState (V : Type) where
  index : Option (List V)
  chunks : List String
  chunk_metadata : List ChunkMeta
deriving DecidableEq

/-- `init_vector_store` (lines 211-249): return immediately when the
index already exists (`if index is not None: return index`), otherwise
rebuild the chunk lists from scratch and populate a fresh index. -/
def init_vector_store {V : Type} (enc : String → V) (norm : V → V)
    (kb md : List KBDoc) (s : RagState V) : RagState V :=
  if s.index.isSome then s
  else
    let cm := initChunksMeta kb md
    { index := some (indexVectors enc norm cm.1),
      chunks := cm.1,
      chunk_metadata := cm.2 }

/-- Characterization of the document store following the wording of the
spec: knowledge-base entries first in their order, then the qualifying
markdown sections in order, each entry pairing the chunk text with its
metadata. -/
def specEntries (kb md : List KBDoc) : List (String × ChunkMeta) :=
  kb.map (fun d => (d.title ++ "\n" ++ d.content, ⟨d.title, "builtin"⟩)) ++
  (md.filter (fun d => (pyStrip d.content).length > 50)).map
    (fun d => (d.title ++ "\n" ++ pyStrip d.content, ⟨d.title, "docs"⟩))

example :
    initChunksMeta [⟨"t", "c"⟩] [⟨"s", "ok"⟩] = (["t\nc"], [⟨"t", "builtin"⟩]) := by
  decide

theorem kbFold_eq (kb : List KBDoc) (acc : List String × List ChunkMeta) :
    kb.foldl kbStep acc =
      (acc.1 ++ kb.map (fun d => d.title ++ "\n" ++ d.content),
       acc.2 ++ kb.map (fun d => (⟨d.title, "builtin"⟩ : ChunkMeta))) := by
  induction kb generalizing acc with
  | nil => simp
  | cons d ds ih =>
    rw [List.foldl_cons, ih]
    simp [kbStep]

theorem mdFold_eq (md : List KBDoc) (acc : List String × List ChunkMeta) :
    md.foldl mdStepFiltered acc =
      (acc.1 ++ (md.filter (fun d => (pyStrip d.content).length > 50)).map
        (fun d => d.title ++ "\n" ++ pyStrip d.content),
       acc.2 ++ (md.filter (fun d => (pyStrip d.content).length > 50)).map
        (fun d => (⟨d.title, "docs"⟩ : ChunkMeta))) := by
  induction md generalizing acc with
  | nil => simp
  | cons d ds ih =>
    rw [List.foldl_cons, ih, List.filter_cons]
    by_cases h : (pyStrip d.content).length > 50
    · rw [if_pos (by simpa using h)]
      simp [mdStepFiltered, if_pos h]
    · rw [if_neg (by simpa using h)]
      simp [mdStepFiltered, if_neg h]

theorem initChunksMeta_eq (kb md : List KBDoc) :
    initChunksMeta kb md =
      ((specEntries kb md).map Prod.fst, (specEntries kb md).map Prod.snd) := by
  unfold initChunksMeta specEntries
  rw [mdFold_eq, kbFold_eq]
  simp [List.map_map, Function.comp_def]

/-- Claim C4: after the document-store construction of
`init_vector_store`, the chunk list and the metadata list have equal
length, both equal to the number of knowledge-base entries plus the
number of qualifying markdown sections (stripped length above 50); the
index receives exactly one vector per chunk (same size); and for every
position the chunk text and the metadata entry are the two projections
of the same source entry while the vector at that position is the
normalized embedding of the chunk at that position. -/
theorem init_store_parallel_invariant (kb md : List KBDoc) {V : Type}
    (enc : String → V) (norm : V → V) :
    (initChunksMeta kb md).1.length = (initChunksMeta kb md).2.length ∧
    (initChunksMeta kb md).1.length =
      kb.length + (md.filter (fun d => (pyStrip d.content).length > 50)).length ∧
    (indexVectors enc norm (initChunksMeta kb md).1).length =
      (initChunksMeta kb md).1.length ∧
    (initChunksMeta kb md).1 = (specEntries kb md).map Prod.fst ∧
    (initChunksMeta kb md).2 = (specEntries kb md).map Prod.snd ∧
    ∀ j : Nat, (indexVectors enc norm (initChunksMeta kb md).1)[j]? =
      ((initChunksMeta kb md).1[j]?).map (fun c => norm (enc c)) := by
  have he := initChunksMeta_eq kb md
  refine ⟨?_, ?_, ?_, ?_, ?_, ?_⟩
  · rw [he]
    simp
  · rw [he]
    simp [specEntries]
  · simp [indexVectors]
  · rw [he]
  · rw [he]
  · intro j
    simp [indexVectors, List.getElem?_map, Function.comp_def]

/-- Claim C5: a markdown section whose stripped content is 50 characters
or fewer contributes neither a chunk nor a metadata entry, while a
section whose stripped content exceeds 50 characters contributes exactly
one of each; in particular the file consisting of a heading followed by
the body "ok" splits into one section that yields zero chunks. -/
theorem short_sections_excluded (kb md : List KBDoc) (d : KBDoc) :
    (initChunksMeta kb (md ++ [d]) =
      if (pyStrip d.content).length > 50 then
        ((initChunksMeta kb md).1 ++ [d.title ++ "\n" ++ pyStrip d.content],
         (initChunksMeta kb md).2 ++ [⟨d.title, "docs"⟩])
      else initChunksMeta kb md) ∧
    splitSections "doc" "## T\nok" = [⟨"T", "ok"⟩] ∧
    initChunksMeta [] (splitSections "doc" "## T\nok") = ([], []) := by
  refine ⟨?_, by decide, by decide⟩
  unfold initChunksMeta
  rw [List.foldl_append]
  by_cases h : (pyStrip d.content).length > 50
  · rw [if_pos h]
    simp [mdStepFiltered, if_pos h]
  · rw [if_neg h]
    simp [mdStepFiltered, if_neg h]

theorem mdFold_no_heading (b : List String) (secs : List KBDoc) (t : String)
    (acc : List String) (hb : ∀ l ∈ b, startsWithHH l = false) :
    b.foldl mdStep (secs, t, acc) = (secs, t, acc ++ b) := by
  induction b generalizing acc with
  | nil => simp
  | cons x xs ih =>
    have hx : startsWithHH x = false := hb x (List.mem_cons_self _ _)
    rw [List.foldl_cons,
      show mdStep (secs, t, acc) x = (secs, t, acc ++ [x]) from by
        simp [mdStep, hx],
      ih (acc ++ [x]) (fun l hl => hb l (List.mem_cons_of_mem _ hl))]
    simp

/-- Claim C6, counterexample to the claim as stated: a file with exactly
two second-level headings, each followed by a body of raw length 51
(greater than 50), for which chunking yields zero chunks instead of two,
because the code filters on the length of the stripped body (here
51 spaces strip to the empty string). -/
theorem md_roundtrip_counterexample :
    splitSections "f"
        ("## A" ++ "\n" ++ String.mk (List.replicate 51 ' ') ++ "\n" ++
         "## B" ++ "\n" ++ String.mk (List.replicate 51 ' ')) =
      [⟨"A", String.mk (List.replicate 51 ' ')⟩,
       ⟨"B", String.mk (List.replicate 51 ' ')⟩] ∧
    (String.mk (List.replicate 51 ' ')).length = 51 ∧
    (initChunksMeta []
      (splitSections "f"
        ("## A" ++ "\n" ++ String.mk (List.replicate 51 ' ') ++ "\n" ++
         "## B" ++ "\n" ++ String.mk (List.replicate 51 ' ')))).1.length = 0 := by
  decide

/-- Claim C6, amended: for every markdown file consisting of exactly two
second-level headings, each followed by a non-heading body whose
stripped length exceeds 50 characters, chunking yields exactly 2 chunks,
each titled with the text of its heading (the heading marker removed by
`line[3:]` and the remainder stripped), and each chunk is its title,
a newline, and its stripped body — so the stripped body appears in the
chunk verbatim; the second heading line flushes the previously
accumulated section, and the final accumulated section is flushed at
end of file. -/
theorem md_roundtrip_two_sections (stem l1 l2 : String) (b1 b2 : List String)
    (h1 : startsWithHH l1 = true) (h2 : startsWithHH l2 = true)
    (hb1 : ∀ l ∈ b1, startsWithHH l = false)
    (hb2 : ∀ l ∈ b2, startsWithHH l = false)
    (hlen1 : (pyStrip (pyJoinNL b1)).length > 50)
    (hlen2 : (pyStrip (pyJoinNL b2)).length > 50) :
    splitSectionsLines stem (l1 :: b1 ++ l2 :: b2) =
      [⟨pyStrip (pyDropThree l1), pyJoinNL b1⟩,
       ⟨pyStrip (pyDropThree l2), pyJoinNL b2⟩] ∧
    (initChunksMeta [] (splitSectionsLines stem (l1 :: b1 ++ l2 :: b2))).1 =
      [pyStrip (pyDropThree l1) ++ "\n" ++ pyStrip (pyJoinNL b1),
       pyStrip (pyDropThree l2) ++ "\n" ++ pyStrip (pyJoinNL b2)] ∧
    (initChunksMeta [] (splitSectionsLines stem (l1 :: b1 ++ l2 :: b2))).2 =
      [⟨pyStrip (pyDropThree l1), "docs"⟩,
       ⟨pyStrip (pyDropThree l2), "docs"⟩] := by
  have hb1ne : b1 ≠ [] := by
    intro h
    rw [h] at hlen1
    simp [pyJoinNL, pyStrip] at hlen1
  have hb2ne : b2 ≠ [] := by
    intro h
    rw [h] at hlen2
    simp [pyJoinNL, pyStrip] at hlen2
  have hf1 : List.foldl mdStep ([], stem, []) (l1 :: b1) =
      ([], pyStrip (pyDropThree l1), b1) := by
    rw [List.foldl_cons,
      show mdStep ([], stem, []) l1 = ([], pyStrip (pyDropThree l1), []) from by
        simp [mdStep, h1],
      mdFold_no_heading b1 [] (pyStrip (pyDropThree l1)) [] hb1]
    simp
  have hf2 : List.foldl mdStep ([], pyStrip (pyDropThree l1), b1) (l2 :: b2) =
      ([⟨pyStrip (pyDropThree l1), pyJoinNL b1⟩],
       pyStrip (pyDropThree l2), b2) := by
    rw [List.foldl_cons,
      show mdStep ([], pyStrip (pyDropThree l1), b1) l2 =
          ([⟨pyStrip (pyDropThree l1), pyJoinNL b1⟩],
           pyStrip (pyDropThree l2), []) from by
        simp [mdStep, h2, List.isEmpty_iff, hb1ne],
      mdFold_no_heading b2 _ _ [] hb2]
    simp
  have hfold : List.foldl mdStep ([], stem, []) (l1 :: b1 ++ l2 :: b2) =
      ([⟨pyStrip (pyDropThree l1), pyJoinNL b1⟩],
       pyStrip (pyDropThree l2), b2) := by
    rw [List.foldl_append, hf1, hf2]
  have hsections : splitSectionsLines stem (l1 :: b1 ++ l2 :: b2) =
      [⟨pyStrip (pyDropThree l1), pyJoinNL b1⟩,
       ⟨pyStrip (pyDropThree l2), pyJoinNL b2⟩] := by
    simp only [splitSectionsLines, hfold]
    simp [List.isEmpty_iff, hb2ne]
  refine ⟨hsections, ?_, ?_⟩ <;>
    rw [hsections] <;>
    simp [initChunksMeta, mdStepFiltered, kbStep, hlen1, hlen2]

theorem md_roundtrip_two_sections_witness :
    splitSectionsLines "f"
        ("## A" :: [String.mk (List.replicate 60 'x')] ++
          "## B" :: [String.mk (List.replicate 60 'y')]) =
      [⟨pyStrip (pyDropThree "## A"), pyJoinNL [String.mk (List.replicate 60 'x')]⟩,
       ⟨pyStrip (pyDropThree "## B"), pyJoinNL [String.mk (List.replicate 60 'y')]⟩] ∧
    (initChunksMeta [] (splitSectionsLines "f"
        ("## A" :: [String.mk (List.replicate 60 'x')] ++
          "## B" :: [String.mk (List.replicate 60 'y')]))).1 =
      [pyStrip (pyDropThree "## A") ++ "\n" ++
        pyStrip (pyJoinNL [String.mk (List.replicate 60 'x')]),
       pyStrip (pyDropThree "## B") ++ "\n" ++
        pyStrip (pyJoinNL [String.mk (List.replicate 60 'y')])] ∧
    (initChunksMeta [] (splitSectionsLines "f"
        ("## A" :: [String.mk (List.replicate 60 'x')] ++
          "## B" :: [String.mk (List.replicate 60 'y')]))).2 =
      [⟨pyStrip (pyDropThree "## A"), "docs"⟩,
       ⟨pyStrip (pyDropThree "## B"), "docs"⟩] :=
  md_roundtrip_two_sections "f" "## A" "## B"
    [String.mk (List.replicate 60 'x')] [String.mk (List.replicate 60 'y')]
    (by decide) (by decide) (by decide) (by decide) (by decide) (by decide)

/-- Claim C7: the lazy build of `init_vector_store` is idempotent — a
second call while the index is already built returns the state
unchanged (no rebuild), so the index after two calls is the very state
after one call and in particular has the same size, with no
duplication. -/
theorem init_vector_store_idempotent {V : Type} (enc : String → V) (norm : V → V)
    (kb md : List KBDoc) (s : RagState V) :
    init_vector_store enc norm kb md (init_vector_store enc norm kb md s) =
      init_vector_store enc norm kb md s ∧
    (init_vector_store enc norm kb md
        (init_vector_store enc norm kb md s)).index.map List.length =
      (init_vector_store enc norm kb md s).index.map List.length := by
  have h : (init_vector_store enc norm kb md s).index.isSome = true := by
    unfold init_vector_store
    by_cases hs : s.index.isSome
    · rw [if_pos hs]
      exact hs
    · rw [if_neg hs]
      rfl
  have heq : init_vector_store enc norm kb md (init_vector_store enc norm kb md s) =
      init_vector_store enc norm kb md s := by
    rw [init_vector_store, if_pos h]
  exact ⟨heq, by rw [heq]⟩

/-- Python `sep.join(items)` for an arbitrary separator, used for the
context separator of `generate_response`. -/
def pyJoinSep (sep : String) : List String → String
  | [] => ""
  | [x] => x
  | x :: xs => x ++ sep ++ pyJoinSep sep xs

/-- JSON body of a `/chat` response: either the success payload with
`response` and `sources` fields, or an object with an `error` field. -/
inductive ChatBody where
  | ok (response : String) (sources : List String)
  | err (error : String)
deriving DecidableEq, Repr

/-- Observable side-effecting calls of the chat handler, in invocation
order: a retrieval (embedding plus index query) and a generation. -/
inductive Effect where
  | retrieval
  | generation
deriving DecidableEq, Repr

/-- The prompt assembly of `generate_response` (lines 322-328):
Mistral-Instruct markers around the system prompt, the joined context,
and the user question. -/
def mkPrompt (sys context query : String) : String :=
  "<s>[INST] " ++ sys ++ "\n\nContext from knowledge base:\n" ++ context ++
    "\n\nUser question: " ++ query ++ " [/INST]"

/-- `generate_response` (lines 312-339): join the retrieved chunk
contents with the separator, build the prompt, call the language model
`llm`, and strip the completion. -/
def generate_response (llm : String → String) (sys query : String)
    (context_chunks : List RetrievalResult) : String :=
  let context := pyJoinSep "\n\n---\n\n" (context_chunks.map (fun c => c.content))
  pyStrip (llm (mkPrompt sys context query))

/-- The `/chat` handler (lines 353-376): read the `message` field
(default empty), strip it, reject a falsy query with a 400 error
without touching the retrieval or generation machinery; otherwise
retrieve the top-3 chunks (building the store lazily first, as
`retrieve` does), generate, and answer 200 with the stripped completion
and the retrieved titles.  An exception inside `retrieve` becomes a 500
response carrying the exception text (modelled by a fixed message).
The returned triple is the module state after the call, the HTTP status
with the response body, and the external calls that were made. -/
def chat {V : Type} (enc : String → V) (norm : V → V) (kb md : List KBDoc)
    (search : String → Nat → List (Rat × Int)) (llm : String → String)
    (sys : String) (message : Option String) (s : RagState V) :
    RagState V × (Nat × ChatBody) × List Effect :=
  let query := pyStrip (message.getD "")
  if query = "" then (s, (400, ChatBody.err "No message provided"), [])
  else
    let s1 := if s.index.isSome then s else init_vector_store enc norm kb md s
    match retrieveResults s1.chunks s1.chunk_metadata (search query 3) with
    | none => (s1, (500, ChatBody.err "retrieval error"), [Effect.retrieval])
    | some ctx =>
      (s1, (200, ChatBody.ok (generate_response llm sys query ctx)
        (ctx.map (fun c => c.metadata.title))),
       [Effect.retrieval, Effect.generation])

/-- Claim C8: a `/chat` request whose message is missing, empty or
whitespace-only gets status 400 with the error text
"No message provided", the module state is returned unchanged, and no
retrieval or generation call happens (empty effect list). -/
theorem chat_rejects_blank_message {V : Type} (enc : String → V) (norm : V → V)
    (kb md : List KBDoc) (search : String → Nat → List (Rat × Int))
    (llm : String → String) (sys : String) (message : Option String)
    (s : RagState V) (h : pyStrip (message.getD "") = "") :
    chat enc norm kb md search llm sys message s =
      (s, (400, ChatBody.err "No message provided"), []) := by
  simp [chat, h]

theorem chat_rejects_blank_message_witness :
    chat (V := Unit) (fun _ => ()) id [] [] (fun _ _ => []) (fun _ => "") ""
        (some "   ") ⟨none, [], []⟩ =
      (⟨none, [], []⟩, (400, ChatBody.err "No message provided"), []) :=
  chat_rejects_blank_message (fun _ => ()) id [] [] (fun _ _ => []) (fun _ => "") ""
    (some "   ") ⟨none, [], []⟩ (by decide)

theorem retrieveResults_length_le (chunks : List String) (meta : List ChunkMeta)
    (pairs : List (Rat × Int)) (rs : List RetrievalResult)
    (h : retrieveResults chunks meta pairs = some rs) : rs.length ≤ pairs.length := by
  induction pairs generalizing rs with
  | nil =>
    have : rs = [] := by
      have hh : some [] = some rs := h ▸ rfl
      exact (Option.some.injEq _ _ ▸ hh.symm)
    simp [this]
  | cons p rest ih =>
    obtain ⟨sc, idx⟩ := p
    rw [retrieveResults] at h
    by_cases hlt : idx < (chunks.length : Int)
    · rw [if_pos hlt] at h
      cases hc : pyGet chunks idx with
      | none => rw [hc] at h; cases h
      | some c =>
        cases hmv : pyGet meta idx with
        | none => rw [hc, hmv] at h; cases h
        | some m =>
          rw [hc, hmv] at h
          cases hrest : retrieveResults chunks meta rest with
          | none => rw [hrest] at h; cases h
          | some rs0 =>
            rw [hrest] at h
            have : rs = { content := c, score := sc, metadata := m } :: rs0 := by
              simpa using h.symm
            subst this
            simpa using Nat.succ_le_succ (ih rs0 hrest)
    · rw [if_neg hlt] at h
      exact Nat.le_succ_of_le (ih rs h)

/-- Claim C9, counterexample to the claim as stated: a valid request on
which retrieval and generation both succeed, where the generator
completion is whitespace-only, so the `response` field is the empty
string — not a non-empty string (the sources part behaves as claimed). -/
theorem chat_empty_response_counterexample :
    chat (V := Unit) (fun _ => ()) id [] [] (fun _ _ => [((1 : Rat), 0)])
        (fun _ => "  ") "sys" (some "hi")
        ⟨some [()], ["A\nc"], [⟨"A", "builtin"⟩]⟩ =
      (⟨some [()], ["A\nc"], [⟨"A", "builtin"⟩]⟩,
       (200, ChatBody.ok "" ["A"]),
       [Effect.retrieval, Effect.generation]) := by
  decide

/-- Claim C9, amended: for a valid (non-blank) message, with the store
already built and retrieval succeeding, the handler answers 200; the
`response` field is the generator completion with leading and trailing
whitespace stripped (hence non-empty exactly when the completion has a
non-whitespace character — the code does not itself guarantee
non-emptiness); and `sources` is exactly the ordered list of titles of
the retrieved chunks, with length equal to the number of retrieved
chunks, which is at most 3, duplicates allowed. -/
theorem chat_valid_message_response {V : Type} (enc : String → V) (norm : V → V)
    (kb md : List KBDoc) (search : String → Nat → List (Rat × Int))
    (llm : String → String) (sys : String) (message : Option String)
    (s : RagState V) (ctx : List RetrievalResult)
    (hq : pyStrip (message.getD "") ≠ "")
    (hidx : s.index.isSome = true)
    (hret : retrieveResults s.chunks s.chunk_metadata
        (search (pyStrip (message.getD "")) 3) = some ctx)
    (hk : (search (pyStrip (message.getD "")) 3).length ≤ 3) :
    chat enc norm kb md search llm sys message s =
      (s, (200, ChatBody.ok
        (generate_response llm sys (pyStrip (message.getD "")) ctx)
        (ctx.map (fun c => c.metadata.title))),
       [Effect.retrieval, Effect.generation]) ∧
    generate_response llm sys (pyStrip (message.getD "")) ctx =
      pyStrip (llm (mkPrompt sys
        (pyJoinSep "\n\n---\n\n" (ctx.map (fun c => c.content)))
        (pyStrip (message.getD "")))) ∧
    (ctx.map (fun c => c.metadata.title)).length = ctx.length ∧
    ctx.length ≤ 3 := by
  refine ⟨?_, rfl, by simp, ?_⟩
  · simp [chat, hq, hidx, hret]
  · calc ctx.length ≤ (search (pyStrip (message.getD "")) 3).length :=
      retrieveResults_length_le _ _ _ _ hret
    _ ≤ 3 := hk

theorem chat_valid_message_response_witness :
    chat (V := Unit) (fun _ => ()) id [] [] (fun _ _ => [((1 : Rat), 0)])
        (fun _ => " hello ") "sys" (some "hi")
        ⟨some [()], ["A\nc"], [⟨"A", "builtin"⟩]⟩ =
      (⟨some [()], ["A\nc"], [⟨"A", "builtin"⟩]⟩,
       (200, ChatBody.ok
        (generate_response (fun _ => " hello ") "sys" (pyStrip ((some "hi").getD ""))
          ([⟨"A\nc", 1, ⟨"A", "builtin"⟩⟩] : List RetrievalResult))
        (([⟨"A\nc", (1 : Rat), ⟨"A", "builtin"⟩⟩] : List RetrievalResult).map
          (fun c => c.metadata.title))),
       [Effect.retrieval, Effect.generation]) ∧
    generate_response (fun _ => " hello ") "sys" (pyStrip ((some "hi").getD ""))
        ([⟨"A\nc", 1, ⟨"A", "builtin"⟩⟩] : List RetrievalResult) =
      pyStrip ((fun _ => " hello ") (mkPrompt "sys"
        (pyJoinSep "\n\n---\n\n"
          (([⟨"A\nc", (1 : Rat), ⟨"A", "builtin"⟩⟩] : List RetrievalResult).map
            (fun c => c.content)))
        (pyStrip ((some "hi").getD "")))) ∧
    (([⟨"A\nc", (1 : Rat), ⟨"A", "builtin"⟩⟩] : List RetrievalResult).map
      (fun c => c.metadata.title)).length =
      ([⟨"A\nc", (1 : Rat), ⟨"A", "builtin"⟩⟩] : List RetrievalResult).length ∧
    ([⟨"A\nc", (1 : Rat), ⟨"A", "builtin"⟩⟩] : List RetrievalResult).length ≤ 3 :=
  chat_valid_message_response (fun _ => ()) id [] [] (fun _ _ => [((1 : Rat), 0)])
    (fun _ => " hello ") "sys" (some "hi")
    ⟨some [()], ["A\nc"], [⟨"A", "builtin"⟩]⟩
    [⟨"A\nc", 1, ⟨"A", "builtin"⟩⟩]
    (by decide) (by decide) (by decide) (by decide)

end DefiRag

namespace BenchThreads

/-- Python `min(times)` over a non-empty list (0 placeholder for the
empty list, on which Python raises). -/
def pyMin : List Rat → Rat
  | [] => 0
  | x :: xs => xs.foldl min x

/-- Python `max(times)` over a non-empty list (0 placeholder for the
empty list, on which Python raises). -/
def pyMax : List Rat → Rat
  | [] => 0
  | x :: xs => xs.foldl max x

/-- The per-candidate statistics dictionary returned by `benchmark`
(bench_threads.py lines 95-101). -/
structure BenchStats where
  threads : Nat
  avg_time : Rat
  min_time : Rat
  max_time : Rat
  avg_speed : Rat
deriving DecidableEq, Repr

/-- The aggregation of `benchmark` (lines 86-101) from the recorded
wall-clock durations and per-run token estimates:
`avg_time = sum(times) / len(times)`,
`avg_tokens = sum(tokens_list) / len(tokens_list)`,
`avg_speed = avg_tokens / avg_time`, plus min and max duration. -/
def benchStats (n_threads : Nat) (times tokens_list : List Rat) : BenchStats :=
  let avg_time := times.sum / (times.length : Rat)
  let avg_tokens := tokens_list.sum / (tokens_list.length : Rat)
  { threads := n_threads,
    avg_time := avg_time,
    min_time := pyMin times,
    max_time := pyMax times,
    avg_speed := avg_tokens / avg_time }

/-- The driver loop of bench_threads.py (lines 104-114): for each
candidate thread count, run `benchmark`; a throwing candidate (`none`:
its run data does not exist) is caught and simply skipped, a successful
candidate (`some` of its run durations and token estimates) appends its
stats to `results`. -/
def runAll (b : Nat → Option (List Rat × List Rat)) (thread_counts : List Nat) :
    List BenchStats :=
  thread_counts.foldl
    (fun results n =>
      match b n with
      | some p => results ++ [benchStats n p.1 p.2]
      | none => results)
    []

/-- The recommendation fold of the summary (lines 123-127):
`if best is None or r.avg_time < best.avg_time: best = r`. -/
def pickBest (results : List BenchStats) : Option BenchStats :=
  results.foldl
    (fun best r =>
      match best with
      | none => some r
      | some b => if r.avg_time < b.avg_time then some r else some b)
    none

theorem runAll_go (b : Nat → Option (List Rat × List Rat))
    (tcs : List Nat) (acc : List BenchStats) :
    tcs.foldl
      (fun results n =>
        match b n with
        | some p => results ++ [benchStats n p.1 p.2]
        | none => results)
      acc =
    acc ++ tcs.filterMap (fun n => (b n).map (fun p => benchStats n p.1 p.2)) := by
  induction tcs generalizing acc with
  | nil => simp
  | cons n ns ih =>
    rw [List.foldl_cons, List.filterMap_cons]
    cases hb : b n with
    | none => simp [hb, ih]
    | some p => simp [hb, ih]

theorem pickBest_go (rs : List BenchStats) (cur : BenchStats) :
    ∃ r, rs.foldl
        (fun best r =>
          match best with
          | none => some r
          | some b => if r.avg_time < b.avg_time then some r else some b)
        (some cur) = some r ∧
      (r = cur ∨ r ∈ rs) ∧ r.avg_time ≤ cur.avg_time ∧
      ∀ x ∈ rs, r.avg_time ≤ x.avg_time := by
  induction rs generalizing cur with
  | nil => exact ⟨cur, rfl, Or.inl rfl, le_refl _, by simp⟩
  | cons x xs ih =>
    rw [List.foldl_cons]
    by_cases hx : x.avg_time < cur.avg_time
    · obtain ⟨r, hfold, hmem, hle, hall⟩ := ih x
      refine ⟨r, ?_, ?_, ?_, ?_⟩
      · rw [show (match some cur with
            | none => some x
            | some b => if x.avg_time < b.avg_time then some x else some b) =
            some x from by simp [hx]]
        exact hfold
      · rcases hmem with h | h
        · exact Or.inr (h ▸ List.mem_cons_self _ _)
        · exact Or.inr (List.mem_cons_of_mem _ h)
      · exact le_trans hle (le_of_lt hx)
      · intro y hy
        rcases List.mem_cons.mp hy with h | h
        · exact h ▸ hle
        · exact hall y h
    · obtain ⟨r, hfold, hmem, hle, hall⟩ := ih cur
      refine ⟨r, ?_, ?_, hle, ?_⟩
      · rw [show (match some cur with
            | none => some x
            | some b => if x.avg_time < b.avg_time then some x else some b) =
            some cur from by simp [hx]]
        exact hfold
      · rcases hmem with h | h
        · exact Or.inl h
        · exact Or.inr (List.mem_cons_of_mem _ h)
      · intro y hy
        rcases List.mem_cons.mp hy with h | h
        · exact h ▸ le_trans hle (not_lt.mp hx)
        · exact hall y h

/-- Claim C10: the summary list of the benchmark driver contains exactly
the stats of the candidates whose run succeeded, in candidate order
(each throwing candidate is excluded and the loop continues), the
per-candidate mean duration is the sum of run durations divided by the
number of runs, and whenever a recommendation is produced it is a
successful candidate whose mean duration is minimal among all
successful candidates. -/
theorem bench_failure_isolation (b : Nat → Option (List Rat × List Rat))
    (thread_counts : List Nat) :
    runAll b thread_counts =
      thread_counts.filterMap (fun n => (b n).map (fun p => benchStats n p.1 p.2)) ∧
    (∀ n times tokens, (benchStats n times tokens).avg_time =
      times.sum / (times.length : Rat)) ∧
    ∀ r, pickBest (runAll b thread_counts) = some r →
      r ∈ runAll b thread_counts ∧
      ∀ x ∈ runAll b thread_counts, r.avg_time ≤ x.avg_time := by
  refine ⟨runAll_go b thread_counts [], fun _ _ _ => rfl, ?_⟩
  intro r hr
  cases hrs : runAll b thread_counts with
  | nil =>
    rw [hrs] at hr
    cases hr
  | cons x xs =>
    rw [hrs] at hr
    unfold pickBest at hr
    rw [List.foldl_cons] at hr
    obtain ⟨r0, hfold, hmem, hle, hall⟩ := pickBest_go xs x
    rw [hfold] at hr
    have hrr : r0 = r := by injection hr
    subst hrr
    rcases hmem with h | h
    · subst h
      refine ⟨List.mem_cons_self _ _, ?_⟩
      intro y hy
      rcases List.mem_cons.mp hy with hh | hh
      · subst hh
        exact le_refl _
      · exact hall y hh
    · refine ⟨List.mem_cons_of_mem _ h, ?_⟩
      intro y hy
      rcases List.mem_cons.mp hy with hh | hh
      · subst hh
        exact hle
      · exact hall y hh

theorem bench_failure_isolation_witness :
    benchStats 4 [1] [1] ∈
      runAll (fun n => if n = 4 then some ([(1 : Rat)], [(1 : Rat)]) else none)
        [4, 6] ∧
    ∀ x ∈ runAll (fun n => if n = 4 then some ([(1 : Rat)], [(1 : Rat)]) else none)
        [4, 6],
      (benchStats 4 [1] [1]).avg_time ≤ x.avg_time :=
  (bench_failure_isolation
    (fun n => if n = 4 then some ([(1 : Rat)], [(1 : Rat)]) else none) [4, 6]).2.2
    (benchStats 4 [1] [1]) rfl

end BenchThreads
